import Mathlib

/-!
Shallow embedding of the bone-rigging engine in `src/rigging/dragon-bones.js`
(classes `Bone`, `Armature`, the loader `buildArmatureFromData` and the
facade).  JS numbers are modelled by `ℚ`; the trigonometric functions used by
`Bone.computeWorldTransform` are abstracted as parameters `c s : ℚ → ℚ`
(standing for `Math.cos` / `Math.sin`), so every definition stays executable.
Optional JS values are modelled by `Option`.
-/

namespace Rigging

/-- A 2×3 affine matrix `{a, b, c, d, tx, ty}`, the layout of
`bone.worldTransform` in the source. -/
structure Transform2D where
  a : ℚ
  b : ℚ
  c : ℚ
  d : ℚ
  tx : ℚ
  ty : ℚ
deriving DecidableEq, Repr

/-- The initial cached world transform set by the `Bone` constructor:
`{ a: 1, b: 0, c: 0, d: 1, tx: 0, ty: 0 }`. -/
def initialWorld : Transform2D := ⟨1, 0, 0, 1, 0, 0⟩

/-- A 2D point `{x, y}` as used for keyframe `position` / `scale` payloads. -/
structure Vec2 where
  x : ℚ
  y : ℚ
deriving DecidableEq, Repr

/-- One keyframe of a track: a time plus independently optional channels,
mirroring `{time, rotation?, position?, scale?}`. -/
structure Keyframe where
  time : ℚ
  rotation : Option ℚ := none
  position : Option Vec2 := none
  scale : Option Vec2 := none
deriving DecidableEq, Repr

/-- One animation track: `{ boneName, keyframes }`. -/
structure Track where
  boneName : String
  keyframes : List Keyframe
deriving DecidableEq, Repr

/-- One registered clip: `{ duration, tracks }`. -/
structure AnimationData where
  duration : ℚ
  tracks : List Track
deriving DecidableEq, Repr

/-- The per-bone state touched by playback: the local transform fields of a
`Bone` (`position`, `rotation`, `scale`), plus `length` and the cached
`worldTransform`, which `applyAnimation` never writes. -/
structure BoneState where
  x : ℚ
  y : ℚ
  rotation : ℚ
  scaleX : ℚ
  scaleY : ℚ
  length : ℚ
  world : Transform2D
deriving DecidableEq, Repr

/-- The function `lerp` from the source: `a + (b - a) * t`. -/
def lerp (a b t : ℚ) : ℚ := a + (b - a) * t

/-- Truncation toward zero of a rational, as JS `Math.trunc` /
the implicit truncation inside the `%` operator. -/
def ratTrunc (q : ℚ) : ℤ := if 0 ≤ q then ⌊q⌋ else -⌊-q⌋

/-- The JS remainder operator `x % y` on finite numbers:
`x - y * trunc(x / y)`. -/
def jsMod (x y : ℚ) : ℚ := x - y * ratTrunc (x / y)

/-- The keyframe-search loop of `Armature.applyAnimation`: scan adjacent
pairs `kf[i], kf[i+1]`; return `(kf[i], kf[i+1])` at the first pair with
`time >= kf[i].time && time <= kf[i+1].time`, or `(kf[i], kf[i])` at the
first `kf[i]` with `time < kf[i].time`; `none` when the loop falls through
(the caller then keeps the defaults `(kf[0], kf[last])`). -/
def scanPairs (time : ℚ) : List Keyframe → Option (Keyframe × Keyframe)
  | k0 :: k1 :: rest =>
    if time ≥ k0.time ∧ time ≤ k1.time then some (k0, k1)
    else if time < k0.time then some (k0, k0)
    else scanPairs time (k1 :: rest)
  | _ => none

/-- The bracketing pair used at sample time `time` for a non-empty keyframe
list `k0 :: rest`: the loop result, defaulting to `(first, last)`. -/
def bracket (time : ℚ) (k0 : Keyframe) (rest : List Keyframe) :
    Keyframe × Keyframe :=
  (scanPairs time (k0 :: rest)).getD (k0, rest.getLastD k0)

/-- The interpolation factor: `span = next.time - prev.time`;
`t = span > 0 ? (time - prev.time) / span : 0`. -/
def interpFactor (prev next : Keyframe) (time : ℚ) : ℚ :=
  if next.time - prev.time > 0 then (time - prev.time) / (next.time - prev.time)
  else 0

/-- The rotation block of `applyAnimation`: interpolate only when both
bracketing keyframes define the channel. -/
def applyRotation (prev next : Keyframe) (t : ℚ) (bone : BoneState) :
    BoneState :=
  match prev.rotation, next.rotation with
  | some r0, some r1 => { bone with rotation := lerp r0 r1 t }
  | _, _ => bone

/-- The position block of `applyAnimation`. -/
def applyPosition (prev next : Keyframe) (t : ℚ) (bone : BoneState) :
    BoneState :=
  match prev.position, next.position with
  | some p0, some p1 => { bone with x := lerp p0.x p1.x t, y := lerp p0.y p1.y t }
  | _, _ => bone

/-- The scale block of `applyAnimation`. -/
def applyScale (prev next : Keyframe) (t : ℚ) (bone : BoneState) :
    BoneState :=
  match prev.scale, next.scale with
  | some s0, some s1 =>
    { bone with scaleX := lerp s0.x s1.x t, scaleY := lerp s0.y s1.y t }
  | _, _ => bone

/-- The per-channel application step of `applyAnimation` for one bone:
rotation, then position, then scale, in the source's order. -/
def applyChannels (prev next : Keyframe) (t : ℚ) (bone : BoneState) :
    BoneState :=
  applyScale prev next t (applyPosition prev next t (applyRotation prev next t bone))

/-- Sample one track at `time` onto one bone: find the bracketing pair,
compute the factor, update the defined channels.  An empty keyframe list is
skipped by the caller (`continue` in the source), modelled here as the
identity. -/
def applyTrack (time : ℚ) (track : Track) (bone : BoneState) : BoneState :=
  match track.keyframes with
  | [] => bone
  | k0 :: rest =>
    let pr := bracket time k0 rest
    applyChannels pr.1 pr.2 (interpFactor pr.1 pr.2 time) bone

/-- Replace the value stored under `name` in a name-keyed bone list
(the mutation of the bone object found via `getBone`). -/
def updateBone (bones : List (String × BoneState)) (name : String)
    (f : BoneState → BoneState) : List (String × BoneState) :=
  bones.map fun p => if p.1 == name then (p.1, f p.2) else p

/-- The playback-facing state of an `Armature`: registered bones (name-keyed,
as in `boneMap`), registered clips (name-keyed, as in `animations`), and the
playback cursor fields. -/
structure Armature where
  bones : List (String × BoneState)
  animations : List (String × AnimationData)
  currentAnimation : Option AnimationData := none
  currentAnimationName : Option String := none
  animationTime : ℚ := 0
  animationPlayTimes : ℤ := -1
  animationLoopCount : ℤ := 0
  isPlaying : Bool := false
deriving DecidableEq, Repr

/-- Lookup `getBone(name)`: name lookup in `boneMap`, `null` (here `none`) when
absent. -/
def Armature.getBone (a : Armature) (name : String) : Option BoneState :=
  (a.bones.find? fun p => p.1 == name).map (·.2)

/-- Lookup of a registered clip, as in `this.animations.get(name)`. -/
def Armature.getAnimation (a : Armature) (name : String) :
    Option AnimationData :=
  (a.animations.find? fun p => p.1 == name).map (·.2)

/-- The method `Armature.applyAnimation(anim, time)`: for every track, look up the
target bone and, when it exists and the track has keyframes, write the
interpolated channels onto it. -/
def Armature.applyAnimation (a : Armature) (anim : AnimationData) (time : ℚ) :
    Armature :=
  { a with
    bones := anim.tracks.foldl
      (fun bs track => updateBone bs track.boneName (applyTrack time track))
      a.bones }

/-- The method `Armature.play(name, playTimes)`: no-op for an unregistered name,
otherwise reset the whole playback cursor and start playing. -/
def Armature.play (a : Armature) (name : String) (playTimes : ℤ := -1) :
    Armature :=
  match a.getAnimation name with
  | none => a
  | some anim =>
    { a with
      currentAnimation := some anim
      currentAnimationName := some name
      animationTime := 0
      animationPlayTimes := playTimes
      animationLoopCount := 0
      isPlaying := true }

/-- The method `Armature.stop(name)`.  The source guard is `!name ||
this.currentAnimationName === name`: it fires when `name` is omitted
(`none`), when it is the empty string (falsy in JS), or when it equals the
current clip name. -/
def Armature.stop (a : Armature) (name : Option String) : Armature :=
  if name = none ∨ name = some "" ∨ (name ≠ none ∧ a.currentAnimationName = name) then
    { a with
      isPlaying := false
      currentAnimation := none
      currentAnimationName := none
      animationTime := 0
      animationLoopCount := 0 }
  else a

/-- The method `Armature.advanceTime(dt)`: add `dt` to the elapsed time; on reaching the
duration, count the loop; a positive repeat budget that is now exhausted
clamps to the duration, samples once and stops; otherwise the time wraps by
`%` and the clip is sampled at the resolved time.  (The source's
`effectivePlayTimes` ternary returns `animationPlayTimes` in both branches.) -/
def Armature.advanceTime (a : Armature) (dt : ℚ) : Armature :=
  match a.currentAnimation with
  | none => a
  | some anim =>
    if a.isPlaying = false then a
    else
      let time1 := a.animationTime + dt
      if anim.duration > 0 ∧ time1 ≥ anim.duration then
        let lc := a.animationLoopCount + 1
        let eff := a.animationPlayTimes
        if eff > 0 ∧ lc ≥ eff then
          let a1 := { a with animationTime := anim.duration, animationLoopCount := lc }
          let a2 := a1.applyAnimation anim anim.duration
          { a2 with isPlaying := false }
        else
          let t2 := jsMod time1 anim.duration
          let a1 := { a with animationTime := t2, animationLoopCount := lc }
          a1.applyAnimation anim t2
      else
        let a1 := { a with animationTime := time1 }
        a1.applyAnimation anim time1

/-- The fields of a `Bone` other than its links: name, local transform,
length, and the cached world transform. -/
structure BoneCore where
  name : String
  x : ℚ
  y : ℚ
  rotation : ℚ
  scaleX : ℚ
  scaleY : ℚ
  length : ℚ
  world : Transform2D
deriving DecidableEq, Repr

/-- The `Bone` constructor with the source's defaults applied:
`x=0, y=0, rotation=0, scaleX=1, scaleY=1, length=50`, cached world
initialised to the identity. -/
def BoneCore.new (name : String) (x y : ℚ := 0) (rotation : ℚ := 0)
    (scaleX scaleY : ℚ := 1) (length : ℚ := 50) : BoneCore :=
  ⟨name, x, y, rotation, scaleX, scaleY, length, initialWorld⟩

/-- A bone with its owned `children` list, as built by `addChild`. -/
inductive BoneTree where
  | node : BoneCore → List BoneTree → BoneTree

/-- The core record at the top of a tree. -/
def BoneTree.core : BoneTree → BoneCore
  | .node c _ => c

/-- The children list at the top of a tree. -/
def BoneTree.children : BoneTree → List BoneTree
  | .node _ cs => cs

/-- The local 2×3 matrix of `computeWorldTransform`:
`la = cos·sx, lb = sin·sx, lc = -sin·sy, ld = cos·sy, ltx = x, lty = y`. -/
def localMatrix (c s : ℚ → ℚ) (b : BoneCore) : Transform2D :=
  ⟨c b.rotation * b.scaleX, s b.rotation * b.scaleX,
    -(s b.rotation) * b.scaleY, c b.rotation * b.scaleY, b.x, b.y⟩

/-- The parent-times-local 2×3 composition written out in
`computeWorldTransform`. -/
def composeWorld (p l : Transform2D) : Transform2D :=
  ⟨p.a * l.a + p.c * l.b, p.b * l.a + p.d * l.b,
    p.a * l.c + p.c * l.d, p.b * l.c + p.d * l.d,
    p.a * l.tx + p.c * l.ty + p.tx, p.b * l.tx + p.d * l.ty + p.ty⟩

/-- The world matrix a bone writes into its cache: composed onto the
parent's world when a parent exists, the bare local matrix otherwise. -/
def worldOf (c s : ℚ → ℚ) (pw : Option Transform2D) (b : BoneCore) :
    Transform2D :=
  match pw with
  | some p => composeWorld p (localMatrix c s b)
  | none => localMatrix c s b

mutual

/-- The method `Bone.computeWorldTransform()`: compute this bone's world matrix (from
the parent's cached world, passed here as `pw`), store it, then recurse into
the children in list order, each child reading the freshly stored world. -/
def computeWorldTransform (c s : ℚ → ℚ) (pw : Option Transform2D) :
    BoneTree → BoneTree
  | .node core children =>
    let w := worldOf c s pw core
    .node { core with world := w } (computeWorldTransformList c s (some w) children)

/-- The `for (const child of this.children)` recursion of
`computeWorldTransform`, child by child. -/
def computeWorldTransformList (c s : ℚ → ℚ) (pw : Option Transform2D) :
    List BoneTree → List BoneTree
  | [] => []
  | t :: ts =>
    computeWorldTransform c s pw t :: computeWorldTransformList c s pw ts

end

/-- The method `Armature.updateWorldTransforms()` on the tree view: recompute from the
root when one is assigned, with no parent world above it. -/
def updateRootWorld (c s : ℚ → ℚ) (root : Option BoneTree) : Option BoneTree :=
  match root with
  | none => none
  | some t => some (computeWorldTransform c s none t)

-- ────────────────────────────────────────────────────────────────
-- Flat (name-keyed) view of the loader `buildArmatureFromData` and of
-- `updateWorldTransforms`, used for the root-selection claims.  After the
-- loader's first pass the name→bone map never changes, so every object
-- reference obtained through `getBone` is identified by its name.
-- ────────────────────────────────────────────────────────────────

/-- One entry of `skeletonData.bones`, with the loader's `??` defaults
folded into the record defaults. -/
structure BoneDecl where
  name : String
  parent : Option String := none
  x : ℚ := 0
  y : ℚ := 0
  rotation : ℚ := 0
  scaleX : ℚ := 1
  scaleY : ℚ := 1
  length : ℚ := 50
deriving DecidableEq, Repr

/-- A bone as stored in `boneMap`: constructor fields plus the links set by
`addChild` (`parent` back-reference, owned `children`, both by name). -/
structure FlatBone where
  name : String
  parent : Option String := none
  children : List String := []
  x : ℚ := 0
  y : ℚ := 0
  rotation : ℚ := 0
  scaleX : ℚ := 1
  scaleY : ℚ := 1
  length : ℚ := 50
  world : Transform2D := initialWorld
deriving DecidableEq, Repr

/-- The map `boneMap` as an insertion-ordered association list (the iteration order
of a JS `Map`). -/
abbrev FlatMap := List (String × FlatBone)

/-- JS `Map.set`: replace in place when the key exists (keeping its
insertion position), otherwise append. -/
def assocSet {β : Type} (m : List (String × β)) (k : String) (v : β) :
    List (String × β) :=
  if m.any (fun p => p.1 == k) then
    m.map fun p => if p.1 == k then (k, v) else p
  else m ++ [(k, v)]

/-- JS `Map.get` (with the `|| null` of `getBone` folded into `Option`). -/
def mapGet (m : FlatMap) (n : String) : Option FlatBone :=
  (m.find? fun p => p.1 == n).map (·.2)

/-- First loader pass: `new Bone(bd.name, {...})` then `addBone`. -/
def registerBones (decls : List BoneDecl) : FlatMap :=
  decls.foldl
    (fun m bd =>
      assocSet m bd.name
        { name := bd.name, x := bd.x, y := bd.y, rotation := bd.rotation,
          scaleX := bd.scaleX, scaleY := bd.scaleY, length := bd.length })
    []

/-- One step of the second loader pass: when the declaration names a parent
(`if (bd.parent)` — falsy for an absent or empty name) and that parent is
registered, `parent.addChild(bone)` sets the bone's parent back-reference
and appends it to the parent's children list. -/
def linkStep (m : FlatMap) (bd : BoneDecl) : FlatMap :=
  match bd.parent with
  | none => m
  | some pn =>
    if pn = "" then m else
    match mapGet m pn with
    | none => m
    | some _ =>
      let m1 := m.map fun p =>
        if p.1 == bd.name then (p.1, { p.2 with parent := some pn }) else p
      m1.map fun p =>
        if p.1 == pn then (p.1, { p.2 with children := p.2.children ++ [bd.name] })
        else p

/-- Second loader pass over all declarations. -/
def linkBones (decls : List BoneDecl) (m : FlatMap) : FlatMap :=
  decls.foldl linkStep m

/-- Root determination: the first bone of the map (iteration order) whose
parent back-reference is unset (`if (!bone.parent)`). -/
def selectRoot (m : FlatMap) : Option String :=
  (m.find? fun p => p.2.parent = none).map (·.1)

/-- Overwrite the cached world of the bone stored under `name`. -/
def setWorldF (m : FlatMap) (name : String) (w : Transform2D) : FlatMap :=
  m.map fun p => if p.1 == name then (p.1, { p.2 with world := w }) else p

/-- The flat bone's constructor-field view. -/
def FlatBone.toCore (b : FlatBone) : BoneCore :=
  ⟨b.name, b.x, b.y, b.rotation, b.scaleX, b.scaleY, b.length, b.world⟩

/-- The recursion of `computeWorldTransform` on the flat map, started at `name`: read the
parent's cached world through the back-reference, store this bone's world,
then recurse into the children in list order.  The source recursion carries
no bound; `fuel` only caps the recursion depth, and on the acyclic trees the
source terminates on, any `fuel` at least the tree depth gives the source's
result. -/
def computeWorldFlat (c s : ℚ → ℚ) : ℕ → FlatMap → String → FlatMap
  | 0, m, _ => m
  | fuel + 1, m, name =>
    match mapGet m name with
    | none => m
    | some b =>
      b.children.foldl (fun acc ch => computeWorldFlat c s fuel acc ch)
        (setWorldF m name
          (worldOf c s (b.parent.bind fun pn => (mapGet m pn).map (·.world))
            b.toCore))

/-- The armature as the loader leaves it: the bone map, the selected root
name, and the registered clips. -/
structure FlatArmature where
  bones : FlatMap
  root : Option String
  animations : List (String × AnimationData)
deriving Repr

/-- The method `Armature.updateWorldTransforms()` on the flat view. -/
def FlatArmature.updateWorldTransforms (c s : ℚ → ℚ) (fuel : ℕ)
    (a : FlatArmature) : FlatArmature :=
  match a.root with
  | none => a
  | some r => { a with bones := computeWorldFlat c s fuel a.bones r }

/-- The loader `buildArmatureFromData`: register all bones, link parent/child edges,
pick the root, register the clips, then compute the initial world
transforms. -/
def buildArmatureFromData (c s : ℚ → ℚ) (fuel : ℕ) (decls : List BoneDecl)
    (anims : List (String × AnimationData)) : FlatArmature :=
  let m2 := linkBones decls (registerBones decls)
  let arm : FlatArmature :=
    ⟨m2, selectRoot m2, anims.foldl (fun acc p => assocSet acc p.1 p.2) []⟩
  arm.updateWorldTransforms c s fuel

-- ────────────────────────────────────────────────────────────────
-- Concrete playback fixture: one bone, one clip of duration 1 with a
-- rotation track from 0 to 2.
-- ────────────────────────────────────────────────────────────────

/-- A bone with all constructor defaults. -/
def demoBone : BoneState :=
  { x := 0, y := 0, rotation := 0, scaleX := 1, scaleY := 1, length := 50,
    world := initialWorld }

/-- The rotation track of the spec's interpolation example:
keyframes `(time 0, rotation 0)` and `(time 1, rotation 2)`. -/
def demoTrack : Track :=
  ⟨"b", [{ time := 0, rotation := some 0 }, { time := 1, rotation := some 2 }]⟩

/-- A clip of duration 1 holding `demoTrack`. -/
def demoClip : AnimationData := { duration := 1, tracks := [demoTrack] }

/-- An armature holding `demoBone` under `"b"` and `demoClip` under
`"clip"`, with an empty playback cursor. -/
def demoArmature : Armature :=
  { bones := [("b", demoBone)], animations := [("clip", demoClip)] }


/-- The bone map with every cached world reset: the part of the map
`computeWorldTransform` never rewrites. -/
def stripWorld (m : FlatMap) : FlatMap :=
  m.map fun p => (p.1, { p.2 with world := initialWorld })

/-- The children list stored under a name. -/
def childrenAt (m : FlatMap) (n : String) : Option (List String) :=
  (mapGet m n).map (·.children)

/-- The names the recursion of `computeWorldFlat` visits (and whose cached
worlds it rewrites), mirroring its traversal. -/
def touched : ℕ → FlatMap → String → List String
  | 0, _, _ => []
  | fuel + 1, m, name =>
    match childrenAt m name with
    | none => []
    | some cs => name :: cs.foldr (fun ch acc => touched fuel m ch ++ acc) []

/-- Modelled from the spec: the root the claim's sentence describes — "the
first bone encountered in the declared list order that has no declared
parent" — for comparison with the loader's actual selection. -/
def specDeclaredRoot (decls : List BoneDecl) : Option String :=
  (decls.find? fun bd => bd.parent = none).map (·.name)
/-- A three-and-one skeleton: a chain `"r" → "c"` plus a second parentless
bone `"x"` declared last. -/
def c2WitnessDecls : List BoneDecl :=
  [{ name := "r" }, { name := "c", parent := some "r" }, { name := "x" }]


-- ────────────────────────────────────────────────────────────────
-- Shared facts about the playback step
-- ────────────────────────────────────────────────────────────────

@[simp]
theorem applyAnimation_animationTime (a : Armature) (anim : AnimationData)
    (time : ℚ) : (a.applyAnimation anim time).animationTime = a.animationTime :=
  rfl

@[simp]
theorem applyAnimation_isPlaying (a : Armature) (anim : AnimationData)
    (time : ℚ) : (a.applyAnimation anim time).isPlaying = a.isPlaying :=
  rfl

@[simp]
theorem applyAnimation_loopCount (a : Armature) (anim : AnimationData)
    (time : ℚ) :
    (a.applyAnimation anim time).animationLoopCount = a.animationLoopCount :=
  rfl

/-- Unfolding of `advanceTime` in the reach-the-duration case with a
positive exhausted repeat budget: clamp, sample at the duration, stop. -/
theorem advanceTime_terminal (a : Armature) (anim : AnimationData) (dt : ℚ)
    (hanim : a.currentAnimation = some anim)
    (hplay : a.isPlaying = true)
    (hdur : 0 < anim.duration)
    (hreach : anim.duration ≤ a.animationTime + dt)
    (hpos : 0 < a.animationPlayTimes)
    (hexh : a.animationPlayTimes ≤ a.animationLoopCount + 1) :
    a.advanceTime dt =
      { ({ a with
            animationTime := anim.duration
            animationLoopCount := a.animationLoopCount + 1
          } : Armature).applyAnimation anim anim.duration with
        isPlaying := false } := by
  rw [Armature.advanceTime, hanim]
  simp only [hplay]
  rw [if_neg (by simp), if_pos ⟨hdur, hreach⟩, if_pos ⟨hpos, hexh⟩]

/-- Unfolding of `advanceTime` in the reach-the-duration case with a
non-positive repeat budget: the time wraps by `%` and playback continues. -/
theorem advanceTime_wraps (a : Armature) (anim : AnimationData) (dt : ℚ)
    (hanim : a.currentAnimation = some anim)
    (hplay : a.isPlaying = true)
    (hdur : 0 < anim.duration)
    (hreach : anim.duration ≤ a.animationTime + dt)
    (hnp : a.animationPlayTimes ≤ 0) :
    a.advanceTime dt =
      ({ a with
          animationTime := jsMod (a.animationTime + dt) anim.duration
          animationLoopCount := a.animationLoopCount + 1
        } : Armature).applyAnimation anim
          (jsMod (a.animationTime + dt) anim.duration) := by
  rw [Armature.advanceTime, hanim]
  simp only [hplay]
  rw [if_neg (by simp), if_pos ⟨hdur, hreach⟩,
    if_neg (by intro h; exact absurd hnp (not_le.mpr h.1))]

/-- C1: the claim (and the source's own comments, `-1 = infinite loop,
0 = once`) say `play(name, 0)` plays once then stops; but the
`effectivePlayTimes` ternary in `advanceTime` returns `animationPlayTimes`
unchanged in both branches, so after `play("clip", 0)` and
`advanceTime(1.5)` on a duration-1 clip the time wraps to `0.5` and the
clip keeps playing forever, exactly like repeat count −1 and unlike repeat
count 1. -/
theorem c1_playTimesZero_wraps_like_infinite :
    ((demoArmature.play "clip" 0).advanceTime (3 / 2)).animationTime = 1 / 2 ∧
    ((demoArmature.play "clip" 0).advanceTime (3 / 2)).isPlaying = true ∧
    ((demoArmature.play "clip" 1).advanceTime (3 / 2)).animationTime = 1 ∧
    ((demoArmature.play "clip" 1).advanceTime (3 / 2)).isPlaying = false := by
  rw [advanceTime_wraps (demoArmature.play "clip" 0) demoClip (3 / 2)
      (by simp [Armature.play, Armature.getAnimation, demoArmature])
      (by simp [Armature.play, Armature.getAnimation, demoArmature])
      (by norm_num [demoClip])
      (by norm_num [Armature.play, Armature.getAnimation, demoArmature, demoClip])
      (by simp [Armature.play, Armature.getAnimation, demoArmature]),
    advanceTime_terminal (demoArmature.play "clip" 1) demoClip (3 / 2)
      (by simp [Armature.play, Armature.getAnimation, demoArmature])
      (by simp [Armature.play, Armature.getAnimation, demoArmature])
      (by norm_num [demoClip])
      (by norm_num [Armature.play, Armature.getAnimation, demoArmature, demoClip])
      (by simp [Armature.play, Armature.getAnimation, demoArmature])
      (by simp [Armature.play, Armature.getAnimation, demoArmature])]
  refine ⟨?_, by simp [Armature.play, Armature.getAnimation, demoArmature], ?_, by simp⟩
  · simp only [applyAnimation_animationTime]
    norm_num [Armature.play, Armature.getAnimation, demoArmature, demoClip,
      jsMod, ratTrunc]
  · simp [demoClip]

/-- C6: with repeat count −1, once `elapsedTime` reaches or passes the
duration it is replaced by `elapsedTime % duration` and the clip keeps
playing. -/
theorem c6_infinite_loop_wraps (a : Armature) (anim : AnimationData) (dt : ℚ)
    (hanim : a.currentAnimation = some anim)
    (hplay : a.isPlaying = true)
    (htimes : a.animationPlayTimes = -1)
    (hdur : 0 < anim.duration)
    (hreach : anim.duration ≤ a.animationTime + dt) :
    (a.advanceTime dt).animationTime =
      jsMod (a.animationTime + dt) anim.duration ∧
    (a.advanceTime dt).isPlaying = true := by
  rw [advanceTime_wraps a anim dt hanim hplay hdur hreach (by rw [htimes]; norm_num)]
  simp [hplay]

/-- C6 at the spec's numbers: duration 1, `play(name, -1)`,
`advanceTime(1.5)` leaves `elapsedTime = 0.5` with the clip still
playing. -/
theorem c6_witness :
    ((demoArmature.play "clip" (-1)).advanceTime (3 / 2)).animationTime = 1 / 2 ∧
    ((demoArmature.play "clip" (-1)).advanceTime (3 / 2)).isPlaying = true := by
  have h := c6_infinite_loop_wraps (demoArmature.play "clip" (-1)) demoClip (3 / 2)
    (by simp [demoArmature, Armature.play, Armature.getAnimation])
    (by simp [demoArmature, Armature.play, Armature.getAnimation])
    (by simp [demoArmature, Armature.play, Armature.getAnimation])
    (by norm_num [demoClip])
    (by norm_num [demoArmature, demoClip, Armature.play, Armature.getAnimation])
  refine ⟨h.1.trans ?_, h.2⟩
  norm_num [demoArmature, demoClip, Armature.play, Armature.getAnimation,
    jsMod, ratTrunc]

/-- C8 counterexample: the empty string is falsy in JS, so
`stop("")` fires the `!name` guard and clears the cursor even though `""`
does not match the playing clip's name `"clip"`; the claim's "stop with a
name that does not match ... leaves the playback cursor unchanged" fails
at `name = ""`. -/
theorem c8_counterexample_empty_string_name :
    (demoArmature.play "clip" (-1)).currentAnimationName = some "clip" ∧
    some "" ≠ some "clip" ∧
    (demoArmature.play "clip" (-1)).isPlaying = true ∧
    ((demoArmature.play "clip" (-1)).stop (some "")).isPlaying = false ∧
    ((demoArmature.play "clip" (-1)).stop (some "")).currentAnimationName
      = none := by
  refine ⟨?_, ?_, ?_, ?_, ?_⟩ <;>
    simp [demoArmature, Armature.play, Armature.getAnimation, Armature.stop]

/-- C8 (amended): `stop(name)` clears the full playback cursor when the
name is absent, empty, or equal to the current clip's name, and leaves the
armature unchanged for any other name. -/
theorem c8_stop_semantics (a : Armature) (name : Option String) :
    a.stop name =
      if name = none ∨ name = some "" ∨ a.currentAnimationName = name then
        { a with
          isPlaying := false
          currentAnimation := none
          currentAnimationName := none
          animationTime := 0
          animationLoopCount := 0 }
      else a := by
  rw [Armature.stop]
  by_cases h1 : name = none
  · simp [h1]
  · by_cases h2 : name = some ""
    · simp [h2]
    · by_cases h3 : a.currentAnimationName = name
      · rw [if_pos (Or.inr (Or.inr ⟨h1, h3⟩)),
          if_pos (Or.inr (Or.inr h3))]
      · rw [if_neg, if_neg]
        · simp [h1, h2, h3]
        · simp [h1, h2, h3]

-- ────────────────────────────────────────────────────────────────
-- Keyframe sampling: bracket location and per-channel effects
-- ────────────────────────────────────────────────────────────────

theorem time_head_le_getLastD (l : List Keyframe) (k : Keyframe)
    (h : List.Chain' (fun u v : Keyframe => u.time ≤ v.time) (k :: l)) :
    k.time ≤ (l.getLastD k).time := by
  induction l generalizing k with
  | nil => simp [List.getLastD]
  | cons k1 l ih =>
    rw [List.getLastD_cons]
    exact (List.chain'_cons.mp h).1.trans (ih k1 (List.chain'_cons.mp h).2)

theorem time_head_lt_getLastD (k1 k2 : Keyframe) (rest : List Keyframe)
    (h : List.Chain' (fun u v : Keyframe => u.time < v.time) (k1 :: k2 :: rest)) :
    k1.time < ((k2 :: rest).getLastD k1).time := by
  rw [List.getLastD_cons]
  exact (List.chain'_cons.mp h).1.trans_le
    (time_head_le_getLastD rest k2
      (((List.chain'_cons.mp h).2).imp fun _ _ hab => le_of_lt hab))

/-- Any pair the search loop returns, started below `time`, brackets
`time`. -/
theorem scanPairs_bounds (time : ℚ) (k0 : Keyframe) (rest : List Keyframe)
    (hk0 : k0.time ≤ time) (p n : Keyframe)
    (h : scanPairs time (k0 :: rest) = some (p, n)) :
    p.time ≤ time ∧ time ≤ n.time := by
  induction rest generalizing k0 with
  | nil => simp [scanPairs] at h
  | cons k1 rest ih =>
    rw [scanPairs] at h
    split_ifs at h with h1 h2
    · obtain ⟨h3, h4⟩ : k0 = p ∧ k1 = n := by simpa using h
      exact h3 ▸ h4 ▸ ⟨h1.1, h1.2⟩
    · exact absurd h2 (not_lt.mpr hk0)
    · have hk1 : k1.time ≤ time := by
        by_contra hc
        exact h1 ⟨hk0, le_of_lt (not_le.mp hc)⟩
      exact ih k1 hk1 h

/-- A sample time before the first keyframe brackets as
`(first, first)`. -/
theorem bracket_before_first (time : ℚ) (k0 : Keyframe) (rest : List Keyframe)
    (h : time < k0.time) : bracket time k0 rest = (k0, k0) := by
  cases rest with
  | nil => simp [bracket, scanPairs, List.getLastD]
  | cons k1 rest =>
    rw [bracket, scanPairs,
      if_neg (fun hc => absurd hc.1 (not_le.mpr h)), if_pos h]
    rfl

/-- Past the last keyframe the search loop falls through. -/
theorem scanPairs_after_last (time : ℚ) (k0 k1 : Keyframe)
    (rest : List Keyframe)
    (hasc : List.Chain' (fun u v : Keyframe => u.time ≤ v.time) (k0 :: k1 :: rest))
    (hlast : ((k1 :: rest).getLastD k0).time < time) :
    scanPairs time (k0 :: k1 :: rest) = none := by
  induction rest generalizing k0 k1 with
  | nil =>
    rw [List.getLastD_cons, List.getLastD] at hlast
    have h01 : k0.time ≤ k1.time := (List.chain'_cons.mp hasc).1
    rw [scanPairs, if_neg (fun hc => absurd hc.2 (not_le.mpr hlast)),
      if_neg (not_lt.mpr (le_of_lt (h01.trans_lt hlast)))]
    rfl
  | cons k2 rest ih =>
    have hch := List.chain'_cons.mp hasc
    have hk1 : k1.time ≤ ((k2 :: rest).getLastD k1).time :=
      time_head_le_getLastD (k2 :: rest) k1 hch.2
    rw [List.getLastD_cons] at hlast
    have hk1t : k1.time < time := hk1.trans_lt hlast
    rw [scanPairs, if_neg (fun hc => absurd hc.2 (not_le.mpr hk1t)),
      if_neg (not_lt.mpr (le_of_lt (hch.1.trans_lt hk1t)))]
    exact ih k1 k2 hch.2 hlast

/-- The search loop returns the final adjacent pair at the last keyframe's
time, for strictly ascending keyframes. -/
theorem scanPairs_at_last (k0 k1 : Keyframe) (rest : List Keyframe)
    (hasc : List.Chain' (fun u v : Keyframe => u.time < v.time) (k0 :: k1 :: rest)) :
    ∃ p : Keyframe,
      scanPairs ((rest.getLastD k1).time) (k0 :: k1 :: rest)
          = some (p, rest.getLastD k1) ∧
        p.time < (rest.getLastD k1).time := by
  induction rest generalizing k0 k1 with
  | nil =>
    refine ⟨k0, ?_, (List.chain'_cons.mp hasc).1⟩
    rw [scanPairs,
      if_pos ⟨le_of_lt (List.chain'_cons.mp hasc).1, le_refl _⟩]
    rfl
  | cons k2 rest ih =>
    have hch := List.chain'_cons.mp hasc
    have hk1 : k1.time < ((k2 :: rest).getLastD k1).time :=
      time_head_lt_getLastD k1 k2 rest hch.2
    rw [List.getLastD_cons] at hk1 ⊢
    obtain ⟨p, hp, hpt⟩ := ih k1 k2 hch.2
    refine ⟨p, ?_, hpt⟩
    rw [scanPairs, if_neg (fun hc => absurd hc.2 (not_le.mpr hk1)),
      if_neg (not_lt.mpr (le_of_lt (hch.1.trans hk1)))]
    exact hp

theorem applyRotation_rotation (prev next : Keyframe) (t : ℚ) (b : BoneState) :
    (applyRotation prev next t b).rotation =
      match prev.rotation, next.rotation with
      | some r0, some r1 => lerp r0 r1 t
      | _, _ => b.rotation := by
  rw [applyRotation]
  cases prev.rotation <;> cases next.rotation <;> rfl

theorem applyRotation_others (prev next : Keyframe) (t : ℚ) (b : BoneState) :
    (applyRotation prev next t b).x = b.x ∧
    (applyRotation prev next t b).y = b.y ∧
    (applyRotation prev next t b).scaleX = b.scaleX ∧
    (applyRotation prev next t b).scaleY = b.scaleY ∧
    (applyRotation prev next t b).length = b.length ∧
    (applyRotation prev next t b).world = b.world := by
  rw [applyRotation]
  cases prev.rotation <;> cases next.rotation <;> exact ⟨rfl, rfl, rfl, rfl, rfl, rfl⟩

theorem applyPosition_xy (prev next : Keyframe) (t : ℚ) (b : BoneState) :
    ((applyPosition prev next t b).x, (applyPosition prev next t b).y) =
      match prev.position, next.position with
      | some p0, some p1 => (lerp p0.x p1.x t, lerp p0.y p1.y t)
      | _, _ => (b.x, b.y) := by
  rw [applyPosition]
  cases prev.position <;> cases next.position <;> rfl

theorem applyPosition_others (prev next : Keyframe) (t : ℚ) (b : BoneState) :
    (applyPosition prev next t b).rotation = b.rotation ∧
    (applyPosition prev next t b).scaleX = b.scaleX ∧
    (applyPosition prev next t b).scaleY = b.scaleY ∧
    (applyPosition prev next t b).length = b.length ∧
    (applyPosition prev next t b).world = b.world := by
  rw [applyPosition]
  cases prev.position <;> cases next.position <;> exact ⟨rfl, rfl, rfl, rfl, rfl⟩

theorem applyScale_scale (prev next : Keyframe) (t : ℚ) (b : BoneState) :
    ((applyScale prev next t b).scaleX, (applyScale prev next t b).scaleY) =
      match prev.scale, next.scale with
      | some s0, some s1 => (lerp s0.x s1.x t, lerp s0.y s1.y t)
      | _, _ => (b.scaleX, b.scaleY) := by
  rw [applyScale]
  cases prev.scale <;> cases next.scale <;> rfl

theorem applyScale_others (prev next : Keyframe) (t : ℚ) (b : BoneState) :
    (applyScale prev next t b).rotation = b.rotation ∧
    (applyScale prev next t b).x = b.x ∧
    (applyScale prev next t b).y = b.y ∧
    (applyScale prev next t b).length = b.length ∧
    (applyScale prev next t b).world = b.world := by
  rw [applyScale]
  cases prev.scale <;> cases next.scale <;> exact ⟨rfl, rfl, rfl, rfl, rfl⟩

theorem applyChannels_rotation (prev next : Keyframe) (t : ℚ) (b : BoneState) :
    (applyChannels prev next t b).rotation =
      match prev.rotation, next.rotation with
      | some r0, some r1 => lerp r0 r1 t
      | _, _ => b.rotation := by
  rw [applyChannels,
    (applyScale_others prev next t (applyPosition prev next t (applyRotation prev next t b))).1,
    (applyPosition_others prev next t (applyRotation prev next t b)).1]
  exact applyRotation_rotation prev next t b

theorem applyChannels_xy (prev next : Keyframe) (t : ℚ) (b : BoneState) :
    ((applyChannels prev next t b).x, (applyChannels prev next t b).y) =
      match prev.position, next.position with
      | some p0, some p1 => (lerp p0.x p1.x t, lerp p0.y p1.y t)
      | _, _ => (b.x, b.y) := by
  rw [applyChannels,
    (applyScale_others prev next t (applyPosition prev next t (applyRotation prev next t b))).2.1,
    (applyScale_others prev next t (applyPosition prev next t (applyRotation prev next t b))).2.2.1,
    applyPosition_xy prev next t (applyRotation prev next t b),
    (applyRotation_others prev next t b).1,
    (applyRotation_others prev next t b).2.1]

theorem applyChannels_scale (prev next : Keyframe) (t : ℚ) (b : BoneState) :
    ((applyChannels prev next t b).scaleX, (applyChannels prev next t b).scaleY) =
      match prev.scale, next.scale with
      | some s0, some s1 => (lerp s0.x s1.x t, lerp s0.y s1.y t)
      | _, _ => (b.scaleX, b.scaleY) := by
  rw [applyChannels,
    applyScale_scale prev next t (applyPosition prev next t (applyRotation prev next t b)),
    (applyPosition_others prev next t (applyRotation prev next t b)).2.1,
    (applyPosition_others prev next t (applyRotation prev next t b)).2.2.1,
    (applyRotation_others prev next t b).2.2.1,
    (applyRotation_others prev next t b).2.2.2.1]

theorem applyChannels_length (prev next : Keyframe) (t : ℚ) (b : BoneState) :
    (applyChannels prev next t b).length = b.length := by
  rw [applyChannels,
    (applyScale_others prev next t (applyPosition prev next t (applyRotation prev next t b))).2.2.2.1,
    (applyPosition_others prev next t (applyRotation prev next t b)).2.2.2.1,
    (applyRotation_others prev next t b).2.2.2.2.1]

theorem applyChannels_world (prev next : Keyframe) (t : ℚ) (b : BoneState) :
    (applyChannels prev next t b).world = b.world := by
  rw [applyChannels,
    (applyScale_others prev next t (applyPosition prev next t (applyRotation prev next t b))).2.2.2.2,
    (applyPosition_others prev next t (applyRotation prev next t b)).2.2.2.2,
    (applyRotation_others prev next t b).2.2.2.2.2]

/-- Sampling `applyTrack` on a non-empty track is the channel application at the
located bracket and factor. -/
theorem applyTrack_eq (time : ℚ) (tr : Track) (b : BoneState)
    (k0 : Keyframe) (rest : List Keyframe) (hkf : tr.keyframes = k0 :: rest) :
    applyTrack time tr b =
      applyChannels (bracket time k0 rest).1 (bracket time k0 rest).2
        (interpFactor (bracket time k0 rest).1 (bracket time k0 rest).2 time) b := by
  rw [applyTrack, hkf]

/-- Sampling a strictly ascending track exactly at its last keyframe's time
yields the last keyframe's rotation (when the bracketing pair defines the
channel). -/
theorem sampled_rotation_at_last (k0 : Keyframe) (rest : List Keyframe)
    (hasc : List.Chain' (fun u v : Keyframe => u.time < v.time) (k0 :: rest))
    (r0 r1 : ℚ)
    (hr0 : (bracket ((rest.getLastD k0).time) k0 rest).1.rotation = some r0)
    (hr1 : (rest.getLastD k0).rotation = some r1)
    (tr : Track) (b : BoneState) (hkf : tr.keyframes = k0 :: rest) :
    (applyTrack ((rest.getLastD k0).time) tr b).rotation = r1 := by
  rw [applyTrack_eq _ tr b k0 rest hkf, applyChannels_rotation]
  cases rest with
  | nil =>
    have hbr : bracket ((List.getLastD [] k0).time) k0 [] = (k0, k0) := by
      simp [bracket, scanPairs, List.getLastD]
    rw [hbr] at hr0 ⊢
    simp only [List.getLastD] at hr1
    rw [hr0]
    have : r0 = r1 := by
      rw [hr0] at hr1
      exact Option.some.inj hr1
    simp [interpFactor, lerp, this]
  | cons k1 rest =>
    obtain ⟨p, hp, hpt⟩ := scanPairs_at_last k0 k1 rest hasc
    have hbr : bracket (((k1 :: rest).getLastD k0).time) k0 (k1 :: rest)
        = (p, (k1 :: rest).getLastD k0) := by
      rw [List.getLastD_cons, bracket, hp]
      rfl
    rw [List.getLastD_cons] at hbr hr0 hr1 ⊢
    rw [hbr] at hr0 ⊢
    rw [hr0, hr1]
    have hspan : (0:ℚ) < ((rest.getLastD k1).time - p.time) := by
      linarith
    rw [interpFactor, if_pos hspan, div_self (ne_of_gt hspan)]
    simp [lerp]

/-- C5: for ascending keyframes and a sample time at or below the last
keyframe's time, the located pair brackets the time (with `(first, first)`
when the time precedes the first keyframe), the factor is the normalized
offset within the span — zero on a zero span — and the spec's interpolation
example holds: keyframes `(0, rotation 0)` and `(1, rotation 2)` sampled at
`0.25` give rotation `0.5`. -/
theorem c5_bracket_and_factor (k0 : Keyframe) (rest : List Keyframe)
    (time : ℚ)
    (hasc : List.Chain' (fun u v : Keyframe => u.time ≤ v.time) (k0 :: rest))
    (hub : time ≤ (rest.getLastD k0).time) :
    (k0.time ≤ time →
      (bracket time k0 rest).1.time ≤ time ∧
        time ≤ (bracket time k0 rest).2.time) ∧
    (time < k0.time →
      bracket time k0 rest = (k0, k0) ∧ interpFactor k0 k0 time = 0) ∧
    (∀ prev next : Keyframe, prev.time < next.time →
      interpFactor prev next time = (time - prev.time) / (next.time - prev.time)) ∧
    (∀ prev next : Keyframe, next.time ≤ prev.time →
      interpFactor prev next time = 0) ∧
    (applyTrack (1 / 4) demoTrack demoBone).rotation = 1 / 2 := by
  refine ⟨?_, ?_, ?_, ?_, ?_⟩
  · intro hk0
    rcases h : scanPairs time (k0 :: rest) with _ | ⟨p, n⟩
    · rw [bracket, h]
      exact ⟨hk0, hub⟩
    · rw [bracket, h]
      exact scanPairs_bounds time k0 rest hk0 p n h
  · intro hlt
    refine ⟨bracket_before_first time k0 rest hlt, ?_⟩
    rw [interpFactor, if_neg (by simp)]
  · intro prev next hlt
    rw [interpFactor, if_pos (by linarith)]
  · intro prev next hle
    rw [interpFactor, if_neg (by simp; linarith)]
  · norm_num [applyTrack, demoTrack, demoBone, bracket, scanPairs,
      interpFactor, applyChannels, applyRotation, applyPosition, applyScale,
      lerp]

/-- C5 at a concrete instance: the two-keyframe rotation track, sampled at
`0.25`, gives a bracketing pair around the time and rotation `0.5`. -/
theorem c5_witness :
    ((bracket (1/4) { time := 0, rotation := some 0 }
        [{ time := 1, rotation := some 2 }]).1.time ≤ 1/4 ∧
      (1:ℚ)/4 ≤ (bracket (1/4) { time := 0, rotation := some 0 }
        [{ time := 1, rotation := some 2 }]).2.time) ∧
    (applyTrack (1 / 4) demoTrack demoBone).rotation = 1 / 2 := by
  have h := c5_bracket_and_factor { time := 0, rotation := some 0 }
    [{ time := 1, rotation := some 2 }] (1/4)
    (by norm_num [List.chain'_cons])
    (by norm_num [List.getLastD])
  exact ⟨h.1 (by norm_num), h.2.2.2.2⟩

/-- C7: per channel, sampling writes the interpolated value exactly when
both bracketing keyframes define that channel, and otherwise leaves the
bone's current value; `length` and the cached world transform are never
written by sampling. -/
theorem c7_sparse_channels (time : ℚ) (tr : Track) (b : BoneState)
    (k0 : Keyframe) (rest : List Keyframe) (hkf : tr.keyframes = k0 :: rest) :
    (applyTrack time tr b).rotation =
      (match (bracket time k0 rest).1.rotation, (bracket time k0 rest).2.rotation with
        | some r0, some r1 =>
          lerp r0 r1 (interpFactor (bracket time k0 rest).1 (bracket time k0 rest).2 time)
        | _, _ => b.rotation) ∧
    ((applyTrack time tr b).x, (applyTrack time tr b).y) =
      (match (bracket time k0 rest).1.position, (bracket time k0 rest).2.position with
        | some p0, some p1 =>
          (lerp p0.x p1.x (interpFactor (bracket time k0 rest).1 (bracket time k0 rest).2 time),
            lerp p0.y p1.y (interpFactor (bracket time k0 rest).1 (bracket time k0 rest).2 time))
        | _, _ => (b.x, b.y)) ∧
    ((applyTrack time tr b).scaleX, (applyTrack time tr b).scaleY) =
      (match (bracket time k0 rest).1.scale, (bracket time k0 rest).2.scale with
        | some s0, some s1 =>
          (lerp s0.x s1.x (interpFactor (bracket time k0 rest).1 (bracket time k0 rest).2 time),
            lerp s0.y s1.y (interpFactor (bracket time k0 rest).1 (bracket time k0 rest).2 time))
        | _, _ => (b.scaleX, b.scaleY)) ∧
    (applyTrack time tr b).length = b.length ∧
    (applyTrack time tr b).world = b.world := by
  rw [applyTrack_eq time tr b k0 rest hkf]
  exact ⟨applyChannels_rotation _ _ _ _, applyChannels_xy _ _ _ _,
    applyChannels_scale _ _ _ _, applyChannels_length _ _ _ _,
    applyChannels_world _ _ _ _⟩

/-- C7 at a concrete instance: `demoTrack` defines only the rotation
channel, so sampling it writes rotation and leaves position, scale, length
and the cached world at the bone's current values. -/
theorem c7_witness :
    (applyTrack (1/4) demoTrack demoBone).rotation = 1/2 ∧
    (applyTrack (1/4) demoTrack demoBone).x = demoBone.x ∧
    (applyTrack (1/4) demoTrack demoBone).y = demoBone.y ∧
    (applyTrack (1/4) demoTrack demoBone).scaleX = demoBone.scaleX ∧
    (applyTrack (1/4) demoTrack demoBone).scaleY = demoBone.scaleY ∧
    (applyTrack (1/4) demoTrack demoBone).length = demoBone.length ∧
    (applyTrack (1/4) demoTrack demoBone).world = demoBone.world := by
  have h := c7_sparse_channels (1/4) demoTrack demoBone
    { time := 0, rotation := some 0 } [{ time := 1, rotation := some 2 }] rfl
  obtain ⟨hrot, hxy, hsc, hlen, hw⟩ := h
  refine ⟨?_, ?_, ?_, ?_, ?_, hlen, hw⟩
  · rw [hrot]
    norm_num [bracket, scanPairs, interpFactor, lerp]
  · have := congrArg Prod.fst hxy
    simp only at this
    rw [this]
    norm_num [bracket, scanPairs]
  · have := congrArg Prod.snd hxy
    simp only at this
    rw [this]
    norm_num [bracket, scanPairs]
  · have := congrArg Prod.fst hsc
    simp only at this
    rw [this]
    norm_num [bracket, scanPairs]
  · have := congrArg Prod.snd hsc
    simp only at this
    rw [this]
    norm_num [bracket, scanPairs]

/-- C10: with at least two keyframes, a positive first-to-last span and a
sample time past the last keyframe, the loop falls through to the default
pair `(first, last)`, the factor exceeds 1, and an increasing rotation
channel is extrapolated strictly beyond the last keyframe's value. -/
theorem c10_extrapolates_past_last (k0 k1 : Keyframe) (rest : List Keyframe)
    (time : ℚ) (tr : Track) (b : BoneState) (r0 r1 : ℚ)
    (hasc : List.Chain' (fun u v : Keyframe => u.time ≤ v.time) (k0 :: k1 :: rest))
    (hspan : k0.time < ((k1 :: rest).getLastD k0).time)
    (hafter : ((k1 :: rest).getLastD k0).time < time)
    (hkf : tr.keyframes = k0 :: k1 :: rest)
    (hr0 : k0.rotation = some r0)
    (hr1 : ((k1 :: rest).getLastD k0).rotation = some r1)
    (hlt : r0 < r1) :
    bracket time k0 (k1 :: rest) = (k0, (k1 :: rest).getLastD k0) ∧
    1 < interpFactor k0 ((k1 :: rest).getLastD k0) time ∧
    (applyTrack time tr b).rotation =
      lerp r0 r1 (interpFactor k0 ((k1 :: rest).getLastD k0) time) ∧
    r1 < (applyTrack time tr b).rotation := by
  have hnone := scanPairs_after_last time k0 k1 rest hasc hafter
  have hbr : bracket time k0 (k1 :: rest) = (k0, (k1 :: rest).getLastD k0) := by
    rw [bracket, hnone, List.getLastD_cons]
    rfl
  have hfac : interpFactor k0 ((k1 :: rest).getLastD k0) time =
      (time - k0.time) / (((k1 :: rest).getLastD k0).time - k0.time) := by
    rw [interpFactor, if_pos (by linarith)]
  have hone : 1 < interpFactor k0 ((k1 :: rest).getLastD k0) time := by
    rw [hfac]
    rw [lt_div_iff (by linarith)]
    linarith
  have hval : (applyTrack time tr b).rotation =
      lerp r0 r1 (interpFactor k0 ((k1 :: rest).getLastD k0) time) := by
    rw [applyTrack_eq time tr b k0 (k1 :: rest) hkf, applyChannels_rotation,
      hbr, hr0, hr1]
  refine ⟨hbr, hone, hval, ?_⟩
  rw [hval, lerp]
  nlinarith [hone]

/-- C10 at a concrete instance: `demoTrack` (keyframes at times 0 and 1,
rotations 0 and 2) sampled at time 2 extrapolates: factor 2, rotation 4,
strictly beyond the last keyframe's value 2. -/
theorem c10_witness :
    bracket 2 { time := 0, rotation := some 0 }
        [{ time := 1, rotation := some 2 }]
      = ({ time := 0, rotation := some 0 }, { time := 1, rotation := some 2 }) ∧
    (1:ℚ) < interpFactor { time := 0, rotation := some 0 }
        { time := 1, rotation := some 2 } 2 ∧
    (applyTrack 2 demoTrack demoBone).rotation =
      lerp 0 2 (interpFactor { time := 0, rotation := some 0 }
        { time := 1, rotation := some 2 } 2) ∧
    (2:ℚ) < (applyTrack 2 demoTrack demoBone).rotation := by
  have h := c10_extrapolates_past_last { time := 0, rotation := some 0 }
    { time := 1, rotation := some 2 } [] 2 demoTrack demoBone 0 2
    (by norm_num [List.chain'_cons])
    (by norm_num [List.getLastD])
    (by norm_num [List.getLastD])
    rfl rfl (by simp [List.getLastD]) (by norm_num)
  simpa only [List.getLastD] using h

/-- C3: a clip playing with repeat count 1 and loop count 0 whose elapsed
time reaches or passes the duration in one `advanceTime` step becomes
terminal: the elapsed time is clamped to exactly the duration (no
wrapping), the clip is sampled once at the duration, `isPlaying` becomes
false, and a bone targeted by a strictly ascending track ending at the
duration takes the final keyframe's rotation. -/
theorem c3_play_once_clamps (a : Armature) (anim : AnimationData) (dt : ℚ)
    (tr : Track) (k0 : Keyframe) (rest : List Keyframe) (b : BoneState)
    (r0 r1 : ℚ)
    (hanim : a.currentAnimation = some anim)
    (hplay : a.isPlaying = true)
    (htimes : a.animationPlayTimes = 1)
    (hloop : a.animationLoopCount = 0)
    (hdur : 0 < anim.duration)
    (hreach : anim.duration ≤ a.animationTime + dt)
    (hkf : tr.keyframes = k0 :: rest)
    (hasc : List.Chain' (fun u v : Keyframe => u.time < v.time) (k0 :: rest))
    (hlast : (rest.getLastD k0).time = anim.duration)
    (hr0 : (bracket anim.duration k0 rest).1.rotation = some r0)
    (hr1 : (rest.getLastD k0).rotation = some r1) :
    (a.advanceTime dt).animationTime = anim.duration ∧
    (a.advanceTime dt).isPlaying = false ∧
    (a.advanceTime dt).bones = (a.applyAnimation anim anim.duration).bones ∧
    (applyTrack anim.duration tr b).rotation = r1 := by
  have hterm := advanceTime_terminal a anim dt hanim hplay hdur hreach
    (by rw [htimes]; norm_num) (by rw [htimes, hloop]; norm_num)
  refine ⟨by rw [hterm]; simp, by rw [hterm], by rw [hterm]; simp [Armature.applyAnimation], ?_⟩
  rw [← hlast] at hr0 ⊢
  exact sampled_rotation_at_last k0 rest hasc r0 r1 hr0 hr1 tr b hkf

/-- C3 at the spec's numbers: duration 1, `play(name, 1)`,
`advanceTime(1.5)` clamps the elapsed time to 1, stops playback, and the
sampled rotation equals the final keyframe's value 2. -/
theorem c3_witness :
    ((demoArmature.play "clip" 1).advanceTime (3 / 2)).animationTime
        = demoClip.duration ∧
    ((demoArmature.play "clip" 1).advanceTime (3 / 2)).isPlaying = false ∧
    ((demoArmature.play "clip" 1).advanceTime (3 / 2)).bones
        = ((demoArmature.play "clip" 1).applyAnimation demoClip
            demoClip.duration).bones ∧
    (applyTrack demoClip.duration demoTrack demoBone).rotation = 2 := by
  exact c3_play_once_clamps (demoArmature.play "clip" 1) demoClip (3 / 2)
    demoTrack { time := 0, rotation := some 0 }
    [{ time := 1, rotation := some 2 }] demoBone 0 2
    (by simp [Armature.play, Armature.getAnimation, demoArmature])
    (by simp [Armature.play, Armature.getAnimation, demoArmature])
    (by simp [Armature.play, Armature.getAnimation, demoArmature])
    (by simp [Armature.play, Armature.getAnimation, demoArmature])
    (by norm_num [demoClip])
    (by norm_num [Armature.play, Armature.getAnimation, demoArmature, demoClip])
    rfl
    (by norm_num [List.chain'_cons])
    (by norm_num [List.getLastD, demoClip])
    (by norm_num [bracket, scanPairs, demoClip])
    (by norm_num [List.getLastD])

-- ────────────────────────────────────────────────────────────────
-- World transforms on the bone tree
-- ────────────────────────────────────────────────────────────────

/-- The world matrix written by `computeWorldTransform` ignores the
previously cached world. -/
theorem worldOf_world_irrelevant (c s : ℚ → ℚ) (pw : Option Transform2D)
    (b : BoneCore) (w : Transform2D) :
    worldOf c s pw { b with world := w } = worldOf c s pw b := rfl

/-- C4: `computeWorldTransform` builds the local matrix as
`a = cosθ·sx, b = sinθ·sx, c = −sinθ·sy, d = cosθ·sy, tx = x, ty = y`,
composes it onto the parent's world in the stated 2×3 fashion when a parent
world exists, and stores the bare local matrix otherwise; a parentless bone
constructed at `(100, 200)` gets `world.tx = 100`, `world.ty = 200`,
`world.a = 1`, `world.d = 1`. -/
theorem c4_world_formula (c s : ℚ → ℚ) (core : BoneCore)
    (children : List BoneTree) (p : Transform2D)
    (hc : c 0 = 1) (hs : s 0 = 0) :
    (computeWorldTransform c s none (.node core children)).core.world =
      ⟨c core.rotation * core.scaleX, s core.rotation * core.scaleX,
        -(s core.rotation) * core.scaleY, c core.rotation * core.scaleY,
        core.x, core.y⟩ ∧
    (computeWorldTransform c s (some p) (.node core children)).core.world =
      ⟨p.a * (c core.rotation * core.scaleX) + p.c * (s core.rotation * core.scaleX),
        p.b * (c core.rotation * core.scaleX) + p.d * (s core.rotation * core.scaleX),
        p.a * (-(s core.rotation) * core.scaleY) + p.c * (c core.rotation * core.scaleY),
        p.b * (-(s core.rotation) * core.scaleY) + p.d * (c core.rotation * core.scaleY),
        p.a * core.x + p.c * core.y + p.tx,
        p.b * core.x + p.d * core.y + p.ty⟩ ∧
    ((computeWorldTransform c s none
        (.node (BoneCore.new "root" 100 200 0 1 1 60) [])).core.world.tx = 100 ∧
      (computeWorldTransform c s none
        (.node (BoneCore.new "root" 100 200 0 1 1 60) [])).core.world.ty = 200 ∧
      (computeWorldTransform c s none
        (.node (BoneCore.new "root" 100 200 0 1 1 60) [])).core.world.a = 1 ∧
      (computeWorldTransform c s none
        (.node (BoneCore.new "root" 100 200 0 1 1 60) [])).core.world.d = 1) := by
  refine ⟨?_, ?_, ?_, ?_, ?_, ?_⟩
  · simp [computeWorldTransform, BoneTree.core, worldOf, localMatrix]
  · simp [computeWorldTransform, BoneTree.core, worldOf, localMatrix, composeWorld]
  · simp [computeWorldTransform, BoneTree.core, worldOf, localMatrix, BoneCore.new]
  · simp [computeWorldTransform, BoneTree.core, worldOf, localMatrix, BoneCore.new]
  · simp [computeWorldTransform, BoneTree.core, worldOf, localMatrix, BoneCore.new, hc]
  · simp [computeWorldTransform, BoneTree.core, worldOf, localMatrix, BoneCore.new, hc]

/-- C4 at the concrete root bone `(x = 100, y = 200, length = 60)` with the
real values of cosine and sine at 0. -/
theorem c4_witness :
    (computeWorldTransform (fun _ => 1) (fun _ => 0) none
        (.node (BoneCore.new "root" 100 200 0 1 1 60) [])).core.world.tx = 100 ∧
    (computeWorldTransform (fun _ => 1) (fun _ => 0) none
        (.node (BoneCore.new "root" 100 200 0 1 1 60) [])).core.world.ty = 200 ∧
    (computeWorldTransform (fun _ => 1) (fun _ => 0) none
        (.node (BoneCore.new "root" 100 200 0 1 1 60) [])).core.world.a = 1 ∧
    (computeWorldTransform (fun _ => 1) (fun _ => 0) none
        (.node (BoneCore.new "root" 100 200 0 1 1 60) [])).core.world.d = 1 :=
  (c4_world_formula (fun _ => 1) (fun _ => 0)
    (BoneCore.new "root" 100 200 0 1 1 60) [] initialWorld rfl rfl).2.2

mutual

theorem computeWorldTransform_idem (c s : ℚ → ℚ) (pw : Option Transform2D) :
    ∀ t : BoneTree,
      computeWorldTransform c s pw (computeWorldTransform c s pw t)
        = computeWorldTransform c s pw t
  | .node core children => by
    simp only [computeWorldTransform, worldOf_world_irrelevant]
    exact congrArg _ (computeWorldTransformList_idem c s
      (some (worldOf c s pw core)) children)

theorem computeWorldTransformList_idem (c s : ℚ → ℚ) (pw : Option Transform2D) :
    ∀ l : List BoneTree,
      computeWorldTransformList c s pw (computeWorldTransformList c s pw l)
        = computeWorldTransformList c s pw l
  | [] => by simp [computeWorldTransformList]
  | t :: ts => by
    simp only [computeWorldTransformList]
    exact congrArg₂ List.cons (computeWorldTransform_idem c s pw t)
      (computeWorldTransformList_idem c s pw ts)

end

/-- C9: recomputing world transforms twice in a row with unchanged local
transforms yields the same tree (hence identical world transforms on every
bone): the second `updateWorldTransforms` is a fixpoint of the first. -/
theorem c9_updateWorldTransforms_idempotent (c s : ℚ → ℚ)
    (root : Option BoneTree) :
    updateRootWorld c s (updateRootWorld c s root) = updateRootWorld c s root := by
  cases root with
  | none => rfl
  | some t =>
    simp only [updateRootWorld]
    exact congrArg some (computeWorldTransform_idem c s none t)

-- ────────────────────────────────────────────────────────────────
-- Loader: root selection and the recomputed subtree
-- ────────────────────────────────────────────────────────────────


theorem mapGet_cons (q : String × FlatBone) (l : FlatMap) (n : String) :
    mapGet (q :: l) n = if q.1 == n then some q.2 else mapGet l n := by
  rw [mapGet, List.find?_cons]
  cases h : (q.1 == n) <;> simp [h, mapGet]

theorem mapGet_mapEntry (g : FlatBone → FlatBone) (k : String) (m : FlatMap)
    (n : String) :
    mapGet (m.map fun p => if p.1 == k then (p.1, g p.2) else p) n =
      if n = k then (mapGet m k).map g else mapGet m n := by
  induction m with
  | nil => simp [mapGet]
  | cons q m ih =>
    rw [List.map_cons]
    by_cases hqk : q.1 = k
    · rw [if_pos (beq_iff_eq.mpr hqk), mapGet_cons, mapGet_cons, mapGet_cons,
        if_pos (beq_iff_eq.mpr hqk)]
      by_cases hnk : n = k
      · subst hnk
        rw [if_pos (beq_iff_eq.mpr hqk), if_pos rfl]
        rfl
      · have hqn : ¬ q.1 = n := fun h => hnk (h ▸ hqk)
        rw [if_neg (fun hc => hqn (beq_iff_eq.mp hc)), if_neg hnk,
          if_neg (fun hc => hqn (beq_iff_eq.mp hc)), ih, if_neg hnk]
    · rw [if_neg (fun hc => hqk (beq_iff_eq.mp hc)), mapGet_cons, mapGet_cons,
        mapGet_cons, if_neg (fun hc => hqk (beq_iff_eq.mp hc))]
      by_cases hqn : q.1 = n
      · have hnk : ¬ n = k := fun h => hqk (hqn.trans h)
        rw [if_pos (beq_iff_eq.mpr hqn), if_neg hnk,
          if_pos (beq_iff_eq.mpr hqn)]
      · rw [if_neg (fun hc => hqn (beq_iff_eq.mp hc)),
          if_neg (fun hc => hqn (beq_iff_eq.mp hc)), ih]

theorem mapGet_setWorldF (m : FlatMap) (k : String) (w : Transform2D)
    (n : String) :
    mapGet (setWorldF m k w) n =
      if n = k then (mapGet m k).map (fun b => { b with world := w })
      else mapGet m n := by
  rw [setWorldF]
  exact mapGet_mapEntry (fun b => { b with world := w }) k m n

theorem mapGet_stripWorld (m : FlatMap) (n : String) :
    mapGet (stripWorld m) n =
      (mapGet m n).map (fun b => { b with world := initialWorld }) := by
  induction m with
  | nil => rfl
  | cons q m ih =>
    rw [stripWorld, List.map_cons]
    rw [stripWorld] at ih
    cases h : (q.1 == n) <;> simp [mapGet_cons, h, ih]

theorem childrenAt_strip (m : FlatMap) (n : String) :
    childrenAt m n = (mapGet (stripWorld m) n).map (·.children) := by
  cases h : mapGet m n <;> simp [childrenAt, mapGet_stripWorld, h]

theorem childrenAt_congr_of_strip (m m' : FlatMap)
    (h : stripWorld m = stripWorld m') (n : String) :
    childrenAt m n = childrenAt m' n := by
  rw [childrenAt_strip, childrenAt_strip, h]

theorem isSome_of_strip_eq (m m' : FlatMap)
    (h : stripWorld m = stripWorld m') (n : String) :
    (mapGet m n).isSome = (mapGet m' n).isSome := by
  have h1 : (mapGet (stripWorld m) n).isSome = (mapGet m n).isSome := by
    rw [mapGet_stripWorld]; cases mapGet m n <;> rfl
  have h2 : (mapGet (stripWorld m') n).isSome = (mapGet m' n).isSome := by
    rw [mapGet_stripWorld]; cases mapGet m' n <;> rfl
  rw [← h1, ← h2, h]

theorem stripWorld_setWorldF (m : FlatMap) (k : String) (w : Transform2D) :
    stripWorld (setWorldF m k w) = stripWorld m := by
  induction m with
  | nil => rfl
  | cons q m ih =>
    rw [setWorldF, List.map_cons, stripWorld, List.map_cons, stripWorld,
      List.map_cons]
    rw [setWorldF, stripWorld, stripWorld] at ih
    congr 1
    cases h : (q.1 == k) <;> rfl

theorem foldl_strip_inv {α : Type} (step : FlatMap → α → FlatMap)
    (hstep : ∀ acc x, stripWorld (step acc x) = stripWorld acc)
    (l : List α) : ∀ acc : FlatMap, stripWorld (l.foldl step acc) = stripWorld acc := by
  induction l with
  | nil => intro acc; rfl
  | cons a l ih => intro acc; rw [List.foldl_cons, ih, hstep]

theorem stripWorld_computeWorldFlat (c s : ℚ → ℚ) :
    ∀ (fuel : ℕ) (m : FlatMap) (r : String),
      stripWorld (computeWorldFlat c s fuel m r) = stripWorld m := by
  intro fuel
  induction fuel with
  | zero => intro m r; rfl
  | succ fuel ih =>
    intro m r
    rw [computeWorldFlat]
    rcases h : mapGet m r with _ | b
    · simp only [h]
    · simp only [h]
      rw [foldl_strip_inv _ (fun acc x => ih acc x), stripWorld_setWorldF]

theorem touched_congr : ∀ (fuel : ℕ) (m m' : FlatMap),
    stripWorld m = stripWorld m' → ∀ r, touched fuel m r = touched fuel m' r := by
  intro fuel
  induction fuel with
  | zero => intros; rfl
  | succ fuel ih =>
    intro m m' h r
    rw [touched, touched, childrenAt_congr_of_strip m m' h r]
    rcases hcs : childrenAt m' r with _ | cs
    · rfl
    · simp only [List.cons.injEq, true_and]
      have haux : ∀ cs : List String,
          List.foldr (fun ch acc => touched fuel m ch ++ acc) [] cs
            = List.foldr (fun ch acc => touched fuel m' ch ++ acc) [] cs := by
        intro cs
        induction cs with
        | nil => rfl
        | cons a l ihl =>
          rw [List.foldr_cons, List.foldr_cons, ih m m' h a, ihl]
      exact haux cs

theorem mem_touched_foldr (fuel : ℕ) (m : FlatMap) :
    ∀ (cs : List String) (ch : String), ch ∈ cs → ∀ x, x ∈ touched fuel m ch →
      x ∈ cs.foldr (fun c acc => touched fuel m c ++ acc) [] := by
  intro cs
  induction cs with
  | nil => intro ch h; exact absurd h (List.not_mem_nil ch)
  | cons a l ih =>
    intro ch hch x hx
    rw [List.foldr_cons]
    rcases List.mem_cons.mp hch with h | h
    · exact List.mem_append_left _ (h ▸ hx)
    · exact List.mem_append_right _ (ih ch h x hx)

theorem foldl_inv {α : Type} (P : FlatMap → Prop) (step : FlatMap → α → FlatMap) :
    ∀ (l : List α), (∀ acc x, x ∈ l → P acc → P (step acc x)) →
      ∀ acc, P acc → P (l.foldl step acc) := by
  intro l
  induction l with
  | nil => intro _ acc h; exact h
  | cons a l ih =>
    intro hstep acc h
    rw [List.foldl_cons]
    exact ih (fun acc x hx => hstep acc x (List.mem_cons_of_mem _ hx)) _
      (hstep acc a (List.mem_cons_self _ _) h)

/-- Bones the recursion does not visit keep their whole map entry. -/
theorem computeWorldFlat_unreached (c s : ℚ → ℚ) :
    ∀ (fuel : ℕ) (m : FlatMap) (r n : String), n ∉ touched fuel m r →
      mapGet (computeWorldFlat c s fuel m r) n = mapGet m n := by
  intro fuel
  induction fuel with
  | zero => intro m r n _; rfl
  | succ fuel ih =>
    intro m r n hn
    rw [computeWorldFlat]
    rcases hb : mapGet m r with _ | b
    · simp only [hb]
    · simp only [hb]
      have hcr : childrenAt m r = some b.children := by simp [childrenAt, hb]
      rw [touched, hcr] at hn
      simp only [List.mem_cons, not_or] at hn
      obtain ⟨hnr, hnf⟩ := hn
      have hnc : ∀ ch ∈ b.children, n ∉ touched fuel m ch := by
        intro ch hch hmem
        exact hnf (mem_touched_foldr fuel m b.children ch hch n hmem)
      have hP := foldl_inv
        (fun acc => mapGet acc n = mapGet m n ∧ stripWorld acc = stripWorld m)
        (fun acc ch => computeWorldFlat c s fuel acc ch) b.children
        (fun acc ch hch hacc =>
          ⟨by
            rw [ih acc ch n (by
              rw [touched_congr fuel acc m hacc.2 ch]
              exact hnc ch hch)]
            exact hacc.1,
            by rw [stripWorld_computeWorldFlat c s fuel acc ch]; exact hacc.2⟩)
        (setWorldF m r
          (worldOf c s (b.parent.bind fun pn => (mapGet m pn).map (·.world))
            b.toCore))
        ⟨by rw [mapGet_setWorldF, if_neg hnr], stripWorld_setWorldF m r _⟩
      exact hP.1

theorem selectRoot_eq_strip : ∀ m : FlatMap, selectRoot m = selectRoot (stripWorld m) := by
  intro m
  induction m with
  | nil => rfl
  | cons q m ih =>
    rw [stripWorld, List.map_cons, selectRoot, selectRoot, List.find?_cons,
      List.find?_cons]
    rw [selectRoot, selectRoot, stripWorld] at ih
    rcases hp : q.2.parent with _ | pn
    · simp [hp]
    · simp only [hp]
      simpa using ih

theorem selectRoot_congr_of_strip (m m' : FlatMap)
    (h : stripWorld m = stripWorld m') : selectRoot m = selectRoot m' := by
  rw [selectRoot_eq_strip m, selectRoot_eq_strip m', h]

theorem mapGet_replace_ne (k : String) (v : FlatBone) (n : String)
    (h : ¬ n = k) :
    ∀ m : FlatMap,
      mapGet (m.map fun p => if p.1 == k then (k, v) else p) n = mapGet m n := by
  intro m
  induction m with
  | nil => rfl
  | cons q m ih =>
    rw [List.map_cons]
    by_cases hqk : q.1 = k
    · rw [if_pos (beq_iff_eq.mpr hqk), mapGet_cons, mapGet_cons]
      rw [if_neg (show ¬ (((k, v).1 == n) = true) from
        fun hc => h (beq_iff_eq.mp hc).symm)]
      rw [if_neg (show ¬ ((q.1 == n) = true) from
        fun hc => h ((beq_iff_eq.mp hc) ▸ hqk))]
      exact ih
    · rw [if_neg (fun hc => hqk (beq_iff_eq.mp hc)), mapGet_cons, mapGet_cons]
      by_cases hqn : q.1 = n
      · rw [if_pos (beq_iff_eq.mpr hqn), if_pos (beq_iff_eq.mpr hqn)]
      · rw [if_neg (fun hc => hqn (beq_iff_eq.mp hc)),
          if_neg (fun hc => hqn (beq_iff_eq.mp hc)), ih]

theorem mapGet_replace_self (k : String) (v : FlatBone) :
    ∀ m : FlatMap, m.any (fun p => p.1 == k) = true →
      mapGet (m.map fun p => if p.1 == k then (k, v) else p) k = some v := by
  intro m
  induction m with
  | nil => intro h; simp at h
  | cons q m ih =>
    intro hany
    rw [List.any_cons] at hany
    rw [List.map_cons]
    by_cases hqk : q.1 = k
    · rw [if_pos (beq_iff_eq.mpr hqk), mapGet_cons,
        if_pos (beq_self_eq_true k)]
    · have hq : (q.1 == k) = false := beq_eq_false_iff_ne.mpr hqk
      rw [if_neg (fun hc => hqk (beq_iff_eq.mp hc)), mapGet_cons,
        if_neg (fun hc => hqk (beq_iff_eq.mp hc))]
      rw [hq, Bool.false_or] at hany
      exact ih hany

theorem mapGet_append_single_self (k : String) (v : FlatBone) :
    ∀ m : FlatMap, m.any (fun p => p.1 == k) = false →
      mapGet (m ++ [(k, v)]) k = some v := by
  intro m
  induction m with
  | nil =>
    intro _
    rw [List.nil_append, mapGet_cons, if_pos (beq_self_eq_true k)]
  | cons q m ih =>
    intro hany
    rw [List.any_cons] at hany
    have hq : (q.1 == k) = false := by
      cases hqv : (q.1 == k)
      · rfl
      · rw [hqv, Bool.true_or] at hany; exact absurd hany (by simp)
    rw [List.cons_append, mapGet_cons, if_neg (by simp [hq])]
    apply ih
    rw [hq, Bool.false_or] at hany
    exact hany

theorem mapGet_append_single_ne (k : String) (v : FlatBone) (n : String)
    (h : ¬ n = k) :
    ∀ m : FlatMap, mapGet (m ++ [(k, v)]) n = mapGet m n := by
  intro m
  induction m with
  | nil =>
    rw [List.nil_append, mapGet_cons,
      if_neg (fun hc => h (beq_iff_eq.mp hc).symm)]
  | cons q m ih =>
    rw [List.cons_append, mapGet_cons, mapGet_cons]
    by_cases hqn : q.1 = n
    · rw [if_pos (beq_iff_eq.mpr hqn), if_pos (beq_iff_eq.mpr hqn)]
    · rw [if_neg (fun hc => hqn (beq_iff_eq.mp hc)),
        if_neg (fun hc => hqn (beq_iff_eq.mp hc)), ih]

theorem mapGet_assocSet_self (m : FlatMap) (k : String) (v : FlatBone) :
    mapGet (assocSet m k v) k = some v := by
  rw [assocSet]
  by_cases hany : (m.any fun p => p.1 == k) = true
  · rw [if_pos hany]
    exact mapGet_replace_self k v m hany
  · rw [if_neg hany]
    exact mapGet_append_single_self k v m (Bool.eq_false_iff.mpr hany)

theorem mapGet_assocSet_ne (m : FlatMap) (k : String) (v : FlatBone)
    (n : String) (h : ¬ n = k) :
    mapGet (assocSet m k v) n = mapGet m n := by
  rw [assocSet]
  by_cases hany : (m.any fun p => p.1 == k) = true
  · rw [if_pos hany]
    exact mapGet_replace_ne k v n h m
  · rw [if_neg hany]
    exact mapGet_append_single_ne k v n h m

theorem isSome_mapGet_assocSet (m : FlatMap) (k : String) (v : FlatBone)
    (n : String) (h : (mapGet m n).isSome = true) :
    (mapGet (assocSet m k v) n).isSome = true := by
  by_cases hnk : n = k
  · subst hnk
    rw [mapGet_assocSet_self]
    rfl
  · rw [mapGet_assocSet_ne m k v n hnk]
    exact h

theorem isSome_mapGet_mapEntry (g : FlatBone → FlatBone) (k : String)
    (m : FlatMap) (n : String) (h : (mapGet m n).isSome = true) :
    (mapGet (m.map fun p => if p.1 == k then (p.1, g p.2) else p) n).isSome
      = true := by
  rw [mapGet_mapEntry]
  by_cases hn : n = k
  · rw [if_pos hn, ← hn]
    cases hg : mapGet m n
    · rw [hg] at h; exact absurd h (by simp)
    · simp [hg]
  · rw [if_neg hn]
    exact h

theorem isSome_mapGet_linkStep (m : FlatMap) (bd : BoneDecl) (n : String)
    (h : (mapGet m n).isSome = true) :
    (mapGet (linkStep m bd) n).isSome = true := by
  rw [linkStep]
  rcases hp : bd.parent with _ | pn
  · exact h
  · simp only
    by_cases hpn : pn = ""
    · rw [if_pos hpn]; exact h
    · rw [if_neg hpn]
      rcases hg : mapGet m pn with _ | b
      · simp only [hg]; exact h
      · simp only [hg]
        exact isSome_mapGet_mapEntry
          (fun b => { b with children := b.children ++ [bd.name] }) pn _ n
          (isSome_mapGet_mapEntry (fun b => { b with parent := some pn })
            bd.name m n h)

theorem isSome_mapGet_linkBones :
    ∀ (decls : List BoneDecl) (m : FlatMap) (n : String),
      (mapGet m n).isSome = true →
      (mapGet (linkBones decls m) n).isSome = true := by
  intro decls
  induction decls with
  | nil => intro m n h; exact h
  | cons d decls ih =>
    intro m n h
    rw [linkBones, List.foldl_cons]
    exact ih (linkStep m d) n (isSome_mapGet_linkStep m d n h)

theorem isSome_foldl_register_aux :
    ∀ (decls : List BoneDecl) (acc : FlatMap) (n : String),
      ((mapGet acc n).isSome = true ∨ ∃ bd ∈ decls, bd.name = n) →
      (mapGet (decls.foldl
          (fun m bd =>
            assocSet m bd.name
              { name := bd.name, x := bd.x, y := bd.y, rotation := bd.rotation,
                scaleX := bd.scaleX, scaleY := bd.scaleY, length := bd.length })
          acc) n).isSome = true := by
  intro decls
  induction decls with
  | nil =>
    intro acc n h
    rcases h with h | ⟨bd, hbd, _⟩
    · exact h
    · exact absurd hbd (List.not_mem_nil bd)
  | cons d decls ih =>
    intro acc n h
    rw [List.foldl_cons]
    apply ih
    rcases h with h | ⟨bd, hbd, hname⟩
    · exact Or.inl (isSome_mapGet_assocSet _ _ _ _ h)
    · rcases List.mem_cons.mp hbd with heq | hmem
      · left
        subst heq
        subst hname
        rw [mapGet_assocSet_self]
        rfl
      · exact Or.inr ⟨bd, hmem, hname⟩

theorem isSome_mapGet_registerBones (decls : List BoneDecl) (bd : BoneDecl)
    (hbd : bd ∈ decls) :
    (mapGet (registerBones decls) bd.name).isSome = true := by
  rw [registerBones]
  exact isSome_foldl_register_aux decls [] bd.name (Or.inr ⟨bd, hbd, rfl⟩)

/-- C2 counterexample: with declarations
`[{name "a", parent "ghost"}, {name "b"}]` the declared parent `"ghost"` is
not registered, so `"a"`'s parent link is never set and the loader selects
`"a"` as root — not `"b"`, the first bone with *no declared parent* as the
claim reads. -/
theorem c2_counterexample_dangling_parent :
    (buildArmatureFromData (fun _ => 1) (fun _ => 0) 0
        [{ name := "a", parent := some "ghost" }, { name := "b" }] []).root
      = some "a" ∧
    specDeclaredRoot [{ name := "a", parent := some "ghost" }, { name := "b" }]
      = some "b" ∧
    (some "a" : Option String) ≠ some "b" := by
  refine ⟨?_, ?_, by simp⟩
  · simp [buildArmatureFromData, registerBones, linkBones, linkStep, assocSet,
      mapGet, mapGet_cons, selectRoot, FlatArmature.updateWorldTransforms,
      computeWorldFlat, List.find?]
  · simp [specDeclaredRoot, List.find?]

/-- C2 (amended): the loader's root is the first bone in the lookup's
insertion order whose parent back-reference is unset after linking (no
declared parent, or a declared parent name that is absent or empty); every
declared bone name stays registered in the lookup; and
`updateWorldTransforms` rewrites only the entries its recursion from the
root reaches — any bone outside the root's subtree keeps its entry, for
every recursion bound. -/
theorem c2_root_selection_and_subtree (c s : ℚ → ℚ) (fuel fuel2 : ℕ)
    (decls : List BoneDecl) (anims : List (String × AnimationData))
    (bd : BoneDecl) (r n : String)
    (hbd : bd ∈ decls)
    (hroot : (buildArmatureFromData c s fuel decls anims).root = some r)
    (hn : n ∉ touched fuel2
      (buildArmatureFromData c s fuel decls anims).bones r) :
    (buildArmatureFromData c s fuel decls anims).root
      = selectRoot (buildArmatureFromData c s fuel decls anims).bones ∧
    (mapGet (buildArmatureFromData c s fuel decls anims).bones bd.name).isSome
      = true ∧
    mapGet (((buildArmatureFromData c s fuel decls anims).updateWorldTransforms
        c s fuel2).bones) n
      = mapGet (buildArmatureFromData c s fuel decls anims).bones n := by
  rcases hsr : selectRoot (linkBones decls (registerBones decls)) with _ | r0
  · have hb : buildArmatureFromData c s fuel decls anims
        = ⟨linkBones decls (registerBones decls), none,
            anims.foldl (fun acc p => assocSet acc p.1 p.2) []⟩ := by
      simp only [buildArmatureFromData, FlatArmature.updateWorldTransforms, hsr]
    rw [hb] at hroot
    simp at hroot
  · have hb : buildArmatureFromData c s fuel decls anims
        = ⟨computeWorldFlat c s fuel (linkBones decls (registerBones decls)) r0,
            some r0, anims.foldl (fun acc p => assocSet acc p.1 p.2) []⟩ := by
      simp only [buildArmatureFromData, FlatArmature.updateWorldTransforms, hsr]
    rw [hb] at hroot hn ⊢
    simp only at hroot hn ⊢
    obtain rfl : r0 = r := Option.some.inj hroot
    refine ⟨?_, ?_, ?_⟩
    · rw [selectRoot_congr_of_strip _ _
        (stripWorld_computeWorldFlat c s fuel (linkBones decls (registerBones decls)) r0), hsr]
    · rw [isSome_of_strip_eq _ _
        (stripWorld_computeWorldFlat c s fuel (linkBones decls (registerBones decls)) r0) bd.name]
      exact isSome_mapGet_linkBones decls (registerBones decls) bd.name
        (isSome_mapGet_registerBones decls bd hbd)
    · rw [FlatArmature.updateWorldTransforms]
      exact computeWorldFlat_unreached c s fuel2 _ r0 n hn

/-- C2 at the concrete skeleton `c2WitnessDecls`: the loader picks `"r"`
(the first parentless bone), `"x"` stays registered, and recomputing world
transforms from `"r"` leaves `"x"`'s entry untouched. -/
theorem c2_witness :
    (buildArmatureFromData (fun _ => 1) (fun _ => 0) 0 c2WitnessDecls []).root
      = selectRoot
          (buildArmatureFromData (fun _ => 1) (fun _ => 0) 0 c2WitnessDecls []).bones ∧
    (mapGet (buildArmatureFromData (fun _ => 1) (fun _ => 0) 0
        c2WitnessDecls []).bones "x").isSome = true ∧
    mapGet (((buildArmatureFromData (fun _ => 1) (fun _ => 0) 0
          c2WitnessDecls []).updateWorldTransforms (fun _ => 1) (fun _ => 0) 2).bones) "x"
      = mapGet (buildArmatureFromData (fun _ => 1) (fun _ => 0) 0
          c2WitnessDecls []).bones "x" := by
  have h := c2_root_selection_and_subtree (fun _ => 1) (fun _ => 0) 0 2
    c2WitnessDecls [] { name := "x" } "r" "x"
    (List.mem_cons_of_mem _ (List.mem_cons_of_mem _ (List.mem_cons_self _ _)))
    (by
      simp [c2WitnessDecls, buildArmatureFromData, registerBones, linkBones,
        linkStep, assocSet, mapGet, mapGet_cons, selectRoot,
        FlatArmature.updateWorldTransforms, computeWorldFlat, List.find?])
    (by
      simp [c2WitnessDecls, buildArmatureFromData, registerBones, linkBones,
        linkStep, assocSet, mapGet, mapGet_cons, selectRoot,
        FlatArmature.updateWorldTransforms, computeWorldFlat, touched,
        childrenAt, List.find?])
  exact h

end Rigging
